import Mathlib

/-!
Verification of the voice-your-video core pipeline.

Shallow embedding of the TypeScript sources:
  * `src/speechService.ts` — sentence splitter (`splitIntoSentences`),
    WAV container codec (`readWavFile` / `createWavFile`), the parallel
    synthesis orchestrator (`synthesizeSpeechWithTimings`) and its timeline
    accumulation loop,
  * `src/translationService.ts` / `src/server.ts` — subtitle rendering
    (`generateChineseSRT`, `formatSRTTime`).

Modelling conventions:
  * Strings are `List Char`; byte buffers (`Buffer`) are `List Nat`
    (one entry per byte).
  * JavaScript numbers carrying (possibly fractional) millisecond values are
    modelled as `ℚ`; the integer index/byte arithmetic of the source is `Nat`.
  * `fs` I/O is factored out: the bytes a synthesis call wrote to its staging
    file are a parameter (`FragmentOutcome.fileBytes`), and the combined
    container that `createWavFile` would persist is returned in the result
    (`SynthesisResult.writtenWav`, `none` when the source never reaches the
    `createWavFile` call).
  * `Promise.all` resolves to the results in the order of its input array,
    independent of completion order, so the collected outcome list is in
    sentence-index order by the semantics of `Promise.all`.
  * Loops whose progress is not structural are given an explicit fuel
    argument together with lemmas showing the supplied fuel is sufficient.
-/

/-! ### JavaScript string primitives: whitespace class, `trim`, `split` -/

/-- The JavaScript `\s` / `String.prototype.trim` whitespace set
(WhiteSpace ∪ LineTerminator of ECMA-262). -/
def wsChars : List Char :=
  ['\t', '\n', '\u000b', '\u000c', '\r', ' ', ' ', ' ',
   ' ', ' ', ' ', ' ', ' ', ' ', ' ',
   ' ', ' ', ' ', ' ', ' ', ' ', ' ',
   ' ', '　', '﻿']

def isJsWhitespace (c : Char) : Bool := wsChars.contains c

/-- JavaScript `String.prototype.trim`: drop leading and trailing whitespace. -/
def jsTrim (s : List Char) : List Char :=
  ((s.dropWhile isJsWhitespace).reverse.dropWhile isJsWhitespace).reverse

/-- Length of the maximal whitespace run of `t` starting at position `q`
(the characters the `\s*` part of the separator regex consumes). -/
def wsRun (t : List Char) (q : Nat) : Nat :=
  ((t.drop q).takeWhile isJsWhitespace).length

/-- One attempt of the separator regex `(?<=\.)\s*` at position `q` of `t`:
the lookbehind requires the preceding character to be `'.'`, and on success
the match ends after the greedy whitespace run.  Returns the match end. -/
def matchAt (t : List Char) (q : Nat) : Option Nat :=
  if 1 ≤ q ∧ t.getD (q - 1) ' ' = '.' then some (q + wsRun t q) else none

/-- The `Substring(S, a, b)` operation of the ECMAScript split algorithm. -/
def substr (t : List Char) (a b : Nat) : List Char := (t.drop a).take (b - a)

/-- The ECMAScript `String.prototype.split` loop (ES2023 §22.1.3.23),
specialised to the regex `(?<=\.)\s*` used at `speechService.ts:38`.
`p` is the start of the piece being accumulated and `q` the scan position.
The fuel argument only forces termination; `splitLoop_fuel` style lemmas
below are stated for any sufficient fuel. -/
def splitLoop (t : List Char) : Nat → Nat → Nat → List (List Char)
  | 0, _, _ => []
  | fuel + 1, p, q =>
    if q < t.length then
      match matchAt t q with
      | none => splitLoop t fuel p (q + 1)
      | some e =>
        if e = p then splitLoop t fuel p (q + 1)
        else substr t p q :: splitLoop t fuel e e
    else [t.drop p]

/-- Model of `text.split(/(?<=\.)\s*/)` (speechService.ts:38). -/
def jsSplit (t : List Char) : List (List Char) := splitLoop t (2 * t.length + 2) 0 0

/-- Model of `splitIntoSentences` (speechService.ts:35-43): split after periods,
trim every piece, drop the pieces that are empty after trimming. -/
def splitIntoSentences (text : List Char) : List (List Char) :=
  ((jsSplit text).map jsTrim).filter (fun s => decide (0 < s.length))

/-! ### WAV container codec (`readWavFile` / `createWavFile`) -/

def u16LE (v : Nat) : List Nat := [v % 256, v / 256 % 256]

def u32LE (v : Nat) : List Nat :=
  [v % 256, v / 256 % 256, v / 65536 % 256, v / 16777216 % 256]

/-- Node `buffer.readUInt16LE(off)`; out-of-range bytes read as `0`
(call sites below either bounds-check first or are guarded by the loop
condition, mirroring where the Node version would throw). -/
def readU16LE (b : List Nat) (off : Nat) : Nat :=
  b.getD off 0 + 256 * b.getD (off + 1) 0

def readU32LE (b : List Nat) (off : Nat) : Nat :=
  b.getD off 0 + 256 * b.getD (off + 1) 0 + 65536 * b.getD (off + 2) 0 +
    16777216 * b.getD (off + 3) 0

/-- Node `buffer.toString('ascii', off, off+len)`: the `'ascii'` decoding
clamps the range to the buffer and strips the high bit of every byte. -/
def asciiAt (b : List Nat) (off len : Nat) : List Nat :=
  ((b.drop off).take len).map (fun x => x % 128)

def riffMagic : List Nat := [82, 73, 70, 70]
def waveMagic : List Nat := [87, 65, 86, 69]
def fmtMagic : List Nat := [102, 109, 116, 32]
def dataMagic : List Nat := [100, 97, 116, 97]

/-- Decoded WAV value: the fields `readWavFile` returns. -/
structure WavData where
  header : List Nat
  data : List Nat
  sampleRate : Nat
  channels : Nat
  bitsPerSample : Nat
  durationMs : ℚ
deriving DecidableEq, Repr

/-- The chunk-scanning `while` loop of `readWavFile` (speechService.ts:143-167).
`channels`, `sampleRate`, `bitsPerSample` are the mutable locals (defaults
1 / 16000 / 16); a `fmt ` chunk overwrites them, a `data` chunk returns.
The out-of-range `readUInt16LE`/`readUInt32LE` of a truncated `fmt ` chunk
throws in Node and is caught by the surrounding `try` (→ `null`), modelled
by the `offset + 24 ≤ b.length` bounds check.  Fuel forces termination;
`readWavFile` passes `b.length + 1`, enough since each step advances the
offset by at least 8. -/
def scanChunks (b : List Nat) : Nat → Nat → Nat → Nat → Nat → Option WavData
  | 0, _, _, _, _ => none
  | fuel + 1, offset, channels, sampleRate, bitsPerSample =>
    if offset < b.length - 8 then
      let chunkSize := readU32LE b (offset + 4)
      if asciiAt b offset 4 = fmtMagic then
        if offset + 24 ≤ b.length then
          scanChunks b fuel (offset + 8 + chunkSize) (readU16LE b (offset + 10))
            (readU32LE b (offset + 12)) (readU16LE b (offset + 22))
        else none
      else if asciiAt b offset 4 = dataMagic then
        let dataStart := offset + 8
        let audioData := (b.drop dataStart).take chunkSize
        let header := b.take dataStart
        let bytesPerSample : ℚ := (bitsPerSample : ℚ) / 8
        let bytesPerSecond : ℚ := (sampleRate : ℚ) * (channels : ℚ) * bytesPerSample
        some ⟨header, audioData, sampleRate, channels, bitsPerSample,
              ((chunkSize : ℚ) / bytesPerSecond) * 1000⟩
      else scanChunks b fuel (offset + 8 + chunkSize) channels sampleRate bitsPerSample
    else none

/-- Model of `readWavFile` (speechService.ts:120-174) on the bytes of the file:
validate the `RIFF`/`WAVE` markers, then scan chunks from offset 12.
`none` models every `return null` path (including caught exceptions). -/
def readWavFile (b : List Nat) : Option WavData :=
  if asciiAt b 0 4 = riffMagic then
    if asciiAt b 8 4 = waveMagic then
      scanChunks b (b.length + 1) 12 1 16000 16
    else none
  else none

/-- Model of `createWavFile` (speechService.ts:177-207), minus the `fs.writeFileSync`:
the 44-byte canonical header followed by the sample bytes.
`bitsPerSample / 8` is exact whenever `8 ∣ bitsPerSample`, the only case in
which the Node version's checked `writeUInt32LE` does not throw. -/
def createWavFile (audioData : List Nat) (sampleRate channels bitsPerSample : Nat) :
    List Nat :=
  let byteRate := sampleRate * channels * (bitsPerSample / 8)
  let blockAlign := channels * (bitsPerSample / 8)
  let dataSize := audioData.length
  let fileSize := 36 + dataSize
  riffMagic ++ u32LE fileSize ++ waveMagic ++
    fmtMagic ++ u32LE 16 ++ u16LE 1 ++ u16LE channels ++ u32LE sampleRate ++
    u32LE byteRate ++ u16LE blockAlign ++ u16LE bitsPerSample ++
    dataMagic ++ u32LE dataSize ++ audioData

/-! ### Timeline accumulation and the orchestrator -/

structure SentenceTiming where
  sentence : List Char
  startTime : ℚ
  endTime : ℚ
  index : Nat
deriving DecidableEq, Repr

instance : Inhabited SentenceTiming := ⟨⟨[], 0, 0, 0⟩⟩

/-- The timing loop of `synthesizeSpeechWithTimings` (speechService.ts:295-310):
running offset accumulation over `(sentence, durationMs)` pairs,
1-based `index` field. -/
def buildTimingsAux : ℚ → Nat → List (List Char × ℚ) → List SentenceTiming
  | _, _, [] => []
  | cur, i, (s, d) :: rest =>
    ⟨s, cur, cur + d, i + 1⟩ :: buildTimingsAux (cur + d) (i + 1) rest

def buildTimings (sentenceDurations : List (List Char × ℚ)) : List SentenceTiming :=
  buildTimingsAux 0 0 sentenceDurations

/-- Outcome of one `synthesizeSentence` call (speechService.ts:46-117):
the resolved `{success, error}` object together with the bytes the Azure SDK
wrote to that sentence's staging file.  (The per-call `duration` field is
never read by the orchestrator and is omitted.) -/
structure FragmentOutcome where
  success : Bool
  error : Option (List Char)
  fileBytes : List Nat

structure SynthesisResult where
  success : Bool
  error : Option (List Char)
  sentenceTimings : List SentenceTiming
  duration : ℚ
  writtenWav : Option (List Nat)
deriving DecidableEq, Repr

def noSentencesError : List Char := "No sentences found in text".toList

/-- Model of `synthesizeSpeechWithTimings` (speechService.ts:210-331) as a function of
the input text and the per-sentence fragment outcomes (index ↦ outcome).
`Promise.all` yields the outcomes in input (sentence-index) order, so the
subsequent stable-keyed sort by index at line 263 is the identity.
Mirrors the source: first-failure check (`Array.prototype.find`, i.e. lowest
index), per-fragment `readWavFile` with last-successful-decode format
parameters (defaults 16000/1/16), silently-zero duration for fragments whose
container did not parse, concatenated sample bytes, `createWavFile`. -/
def synthesizeSpeechWithTimings (text : List Char)
    (outcomes : Nat → FragmentOutcome) : SynthesisResult :=
  let sentences := splitIntoSentences text
  if sentences.length = 0 then
    ⟨false, some noSentencesError, [], 0, none⟩
  else
    let synthesisResults :=
      (List.range sentences.length).map (fun i => (i, sentences.getD i [], outcomes i))
    match synthesisResults.find? (fun r => !r.2.2.success) with
    | some failed => ⟨false, failed.2.2.error, [], 0, none⟩
    | none =>
      let reads := synthesisResults.map (fun r => (r.2.1, readWavFile r.2.2.fileBytes))
      let audioBuffers := reads.filterMap (fun r => r.2.map WavData.data)
      let fmt := reads.foldl
        (fun acc r => match r.2 with
          | some w => (w.sampleRate, w.channels, w.bitsPerSample)
          | none => acc)
        (16000, 1, 16)
      let sentenceDurations := reads.map
        (fun r => (r.1, match r.2 with | some w => w.durationMs | none => 0))
      let combinedAudio := audioBuffers.flatten
      let written := createWavFile combinedAudio fmt.1 fmt.2.1 fmt.2.2
      ⟨true, none, buildTimings sentenceDurations,
        (sentenceDurations.map Prod.snd).sum, some written⟩

/-! ### Subtitle rendering -/

def natToCharsAux : Nat → Nat → List Char
  | 0, _ => []
  | fuel + 1, n =>
    if n = 0 then [] else natToCharsAux fuel (n / 10) ++ [Char.ofNat (48 + n % 10)]

/-- Decimal rendering of a natural number (JavaScript `String(n)` for a
nonnegative integer-valued number). -/
def natToChars (n : Nat) : List Char :=
  if n = 0 then ['0'] else natToCharsAux (n + 1) n

/-- JavaScript `String(i)` for an integer-valued number. -/
def intToChars (i : ℤ) : List Char :=
  if i < 0 then '-' :: natToChars (-i).toNat else natToChars i.toNat

/-- JavaScript `String.prototype.padStart(w, c)`. -/
def jsPadStart (w : Nat) (c : Char) (s : List Char) : List Char :=
  List.replicate (w - s.length) c ++ s

/-- Truncation toward zero: `Math.trunc`, the rounding JavaScript `%` uses. -/
def jsTrunc (q : ℚ) : ℤ := if q < 0 then ⌈q⌉ else ⌊q⌋

/-- JavaScript `a % b` on (finite) numbers: `a - b * trunc(a / b)`. -/
def jsRem (a b : ℚ) : ℚ := a - b * (jsTrunc (a / b) : ℚ)

/-- Model of `formatSRTTime` (translationService.ts:171-179 and the identical copy at
server.ts:184-192).  `totalSeconds` is an integer, so the inner `%` are
`Int.tmod` and the divisions-then-`Math.floor` are rational floors. -/
def formatSRTTime (milliseconds : ℚ) : List Char :=
  let totalSeconds : ℤ := ⌊milliseconds / 1000⌋
  let hours : ℤ := ⌊(totalSeconds : ℚ) / 3600⌋
  let minutes : ℤ := ⌊((Int.tmod totalSeconds 3600 : ℤ) : ℚ) / 60⌋
  let seconds : ℤ := Int.tmod totalSeconds 60
  let ms : ℤ := ⌊jsRem milliseconds 1000⌋
  jsPadStart 2 '0' (intToChars hours) ++ [':'] ++
    jsPadStart 2 '0' (intToChars minutes) ++ [':'] ++
    jsPadStart 2 '0' (intToChars seconds) ++ [','] ++
    jsPadStart 3 '0' (intToChars ms)

def arrowSep : List Char := " --> ".toList

/-- Model of `generateChineseSRT` (translationService.ts:148-169): sequence number,
time range, translation line (`translations[i] || ''` reads as the empty
string beyond the end of `translations`), blank separator; lines joined
by `'\n'`. -/
def generateChineseSRT (sentenceTimings : List SentenceTiming)
    (translations : List (List Char)) : List Char :=
  if sentenceTimings.length = 0 then []
  else
    let lines := (List.range sentenceTimings.length).flatMap fun i =>
      let timing := sentenceTimings.getD i default
      [natToChars timing.index,
       formatSRTTime timing.startTime ++ arrowSep ++ formatSRTTime timing.endTime,
       translations.getD i [],
       []]
    List.intercalate ['\n'] lines


/-! ### Timeline lemmas (C5) -/

lemma buildTimingsAux_length (l : List (List Char × ℚ)) (cur : ℚ) (k : Nat) :
    (buildTimingsAux cur k l).length = l.length := by
  induction l generalizing cur k with
  | nil => rfl
  | cons hd tl ih => cases hd with | mk s d => simp [buildTimingsAux, ih]

lemma buildTimingsAux_getD (l : List (List Char × ℚ)) (cur : ℚ) (k i : Nat)
    (h : i < l.length) :
    (buildTimingsAux cur k l).getD i default =
      ⟨(l.getD i default).1,
       cur + ((l.map Prod.snd).take i).sum,
       cur + ((l.map Prod.snd).take (i + 1)).sum,
       k + i + 1⟩ := by
  induction l generalizing cur k i with
  | nil => simp at h
  | cons hd tl ih =>
    cases hd with | mk s d =>
    cases i with
    | zero => simp [buildTimingsAux, List.getD_cons_zero]
    | succ j =>
      have hj : j < tl.length := by simpa using h
      simp only [buildTimingsAux, List.getD_cons_succ, List.map_cons, List.take_succ_cons,
        List.sum_cons]
      rw [ih (cur + d) (k + 1) j hj]
      simp only [SentenceTiming.mk.injEq, true_and]
      exact ⟨by ring, by ring, by omega⟩

lemma buildTimings_getD (l : List (List Char × ℚ)) (i : Nat) (h : i < l.length) :
    (buildTimings l).getD i default =
      ⟨(l.getD i default).1,
       ((l.map Prod.snd).take i).sum,
       ((l.map Prod.snd).take (i + 1)).sum,
       i + 1⟩ := by
  have := buildTimingsAux_getD l 0 0 i h
  simpa [buildTimings] using this

lemma sum_take_succ_getD (q : List ℚ) (i : Nat) (h : i < q.length) :
    (q.take (i + 1)).sum = (q.take i).sum + q.getD i 0 := by
  rw [List.take_succ, List.sum_append]
  simp [List.getElem?_eq_getElem h, List.getD_eq_getElem?_getD]

lemma getD_map_snd (l : List (List Char × ℚ)) (i : Nat) (h : i < l.length) :
    (l.map Prod.snd).getD i 0 = (l.getD i default).2 := by
  simp [List.getD_eq_getElem?_getD, List.getElem?_eq_getElem, h,
    List.getElem?_eq_getElem (l := l) h]

/-- Claim C5. For every ordered sequence of per-sentence `(sentence, duration)`
pairs, the timing loop of `synthesizeSpeechWithTimings`
(speechService.ts:295-310) produces exactly as many `SentenceTiming`
records, the first interval starts at 0, consecutive intervals are
contiguous (`timing[i].end = timing[i+1].start`), each interval's width is
the corresponding duration, and the `index` fields are `1..N` in order. -/
theorem c5_timeline_reconstruction (sd : List (List Char × ℚ)) :
    (buildTimings sd).length = sd.length ∧
    ((buildTimings sd).getD 0 default).startTime = 0 ∧
    (∀ i, i + 1 < sd.length →
      ((buildTimings sd).getD i default).endTime =
        ((buildTimings sd).getD (i + 1) default).startTime) ∧
    (∀ i, i < sd.length →
      ((buildTimings sd).getD i default).endTime -
        ((buildTimings sd).getD i default).startTime = (sd.getD i default).2) ∧
    (∀ i, i < sd.length → ((buildTimings sd).getD i default).index = i + 1) := by
  refine ⟨buildTimingsAux_length sd 0 0, ?_, ?_, ?_, ?_⟩
  · rcases sd with _ | ⟨⟨s, d⟩, tl⟩
    · simp [buildTimings, buildTimingsAux]; rfl
    · rw [buildTimings_getD _ 0 (by simp)]; simp
  · intro i hi
    rw [buildTimings_getD _ i (by omega), buildTimings_getD _ (i + 1) hi]
  · intro i hi
    rw [buildTimings_getD _ i hi]
    have := sum_take_succ_getD (sd.map Prod.snd) i (by simpa using hi)
    rw [getD_map_snd sd i hi] at this
    simp only []
    rw [this]
    ring
  · intro i hi
    rw [buildTimings_getD _ i hi]

/-- Witness for C5 at a concrete input: two sentences with durations
1200 ms and 900 ms (the worked scenario of the spec). -/
theorem c5_timeline_reconstruction_witness :
    (1 + 1 < ([("Hello world.".toList, (1200 : ℚ)), ("This is a test.".toList, 900)] :
        List (List Char × ℚ)).length ∨ True) ∧
    ((buildTimings [("Hello world.".toList, (1200 : ℚ)), ("This is a test.".toList, 900)]).getD 0
        default).startTime = 0 ∧
    ((buildTimings [("Hello world.".toList, (1200 : ℚ)), ("This is a test.".toList, 900)]).getD 0
          default).endTime =
      ((buildTimings [("Hello world.".toList, (1200 : ℚ)), ("This is a test.".toList, 900)]).getD 1
          default).startTime ∧
    ((buildTimings [("Hello world.".toList, (1200 : ℚ)), ("This is a test.".toList, 900)]).getD 1
        default).index = 2 :=
  ⟨Or.inr trivial,
   (c5_timeline_reconstruction _).2.1,
   (c5_timeline_reconstruction [("Hello world.".toList, (1200 : ℚ)),
      ("This is a test.".toList, 900)]).2.2.1 0 (by decide),
   (c5_timeline_reconstruction [("Hello world.".toList, (1200 : ℚ)),
      ("This is a test.".toList, 900)]).2.2.2.2 1 (by decide)⟩

/-! ### `Array.prototype.find` over the index-ordered result list (C2-C4) -/

lemma find?_range'_map_eq_some {α} (p : α → Bool) (f : Nat → α) (i : Nat) :
    ∀ (s n : Nat), s ≤ i → i < s + n → p (f i) = true →
      (∀ j, s ≤ j → j < i → p (f j) = false) →
      ((List.range' s n).map f).find? p = some (f i) := by
  intro s n
  induction n generalizing s with
  | zero => omega
  | succ m ih =>
    intro hsi hin hp hmin
    rw [List.range'_succ, List.map_cons]
    rcases Nat.eq_or_lt_of_le hsi with heq | hlt
    · subst heq
      exact List.find?_cons_of_pos _ hp
    · rw [List.find?_cons_of_neg _ (by simp [hmin s le_rfl hlt])]
      exact ih (s + 1) (by omega) (by omega) hp (fun j h1 h2 => hmin j (by omega) h2)

lemma find?_range'_map_eq_none {α} (p : α → Bool) (f : Nat → α) :
    ∀ (s n : Nat), (∀ j, s ≤ j → j < s + n → p (f j) = false) →
      ((List.range' s n).map f).find? p = none := by
  intro s n
  induction n generalizing s with
  | zero => simp
  | succ m ih =>
    intro hall
    rw [List.range'_succ, List.map_cons,
      List.find?_cons_of_neg _ (by simp [hall s le_rfl (by omega)])]
    exact ih (s + 1) (fun j h1 h2 => hall j (by omega) (by omega))

lemma find?_range_map_eq_some {α} (p : α → Bool) (f : Nat → α) (i n : Nat)
    (hin : i < n) (hp : p (f i) = true)
    (hmin : ∀ j, j < i → p (f j) = false) :
    ((List.range n).map f).find? p = some (f i) := by
  rw [List.range_eq_range']
  exact find?_range'_map_eq_some p f i 0 n (Nat.zero_le i) (by omega) hp
    (fun j _ h2 => hmin j h2)

lemma find?_range_map_eq_none {α} (p : α → Bool) (f : Nat → α) (n : Nat)
    (hall : ∀ j, j < n → p (f j) = false) :
    ((List.range n).map f).find? p = none := by
  rw [List.range_eq_range']
  exact find?_range'_map_eq_none p f 0 n (fun j _ h2 => hall j (by omega))

/-- Claim C2. If any fragment synthesis call in a batch fails, the orchestrator
(speechService.ts:245-260) returns a single failure carrying the error of the
lowest-index failed sentence — `Promise.all` presents outcomes in sentence
order regardless of completion order, and `Array.prototype.find` picks the
first of them — and no combined audio container is written. -/
theorem c2_lowest_index_failure (t : List Char) (o : Nat → FragmentOutcome) (i : Nat)
    (hi : i < (splitIntoSentences t).length)
    (hfail : (o i).success = false)
    (hmin : ∀ j, j < i → (o j).success = true) :
    (synthesizeSpeechWithTimings t o).success = false ∧
    (synthesizeSpeechWithTimings t o).error = (o i).error ∧
    (synthesizeSpeechWithTimings t o).writtenWav = none := by
  have hne : ¬((splitIntoSentences t).length = 0) := by omega
  have hfind := find?_range_map_eq_some
    (fun r : Nat × List Char × FragmentOutcome => !r.2.2.success)
    (fun j => (j, (splitIntoSentences t).getD j [], o j)) i
    (splitIntoSentences t).length hi (by simp [hfail])
    (fun j hj => by simp [hmin j hj])
  unfold synthesizeSpeechWithTimings
  simp only [hne, if_false, ite_false]
  rw [hfind]
  exact ⟨rfl, rfl, rfl⟩

/-- Witness for C2: a two-sentence batch whose second fragment alone fails
would report that second error; here the first (lowest-index) fragment fails
and its error is reported. -/
theorem c2_lowest_index_failure_witness :
    0 < (splitIntoSentences "One. Two.".toList).length ∧
    (synthesizeSpeechWithTimings "One. Two.".toList
        (fun j => if j = 0 then ⟨false, some "boom".toList, []⟩
                  else ⟨true, none, []⟩)).error = some "boom".toList ∧
    (synthesizeSpeechWithTimings "One. Two.".toList
        (fun j => if j = 0 then ⟨false, some "boom".toList, []⟩
                  else ⟨true, none, []⟩)).writtenWav = none := by
  refine ⟨by decide, ?_, ?_⟩
  · exact (c2_lowest_index_failure _ _ 0 (by decide) (by decide)
      (fun j hj => absurd hj (Nat.not_lt_zero j))).2.1
  · exact (c2_lowest_index_failure "One. Two.".toList
      (fun j => if j = 0 then ⟨false, some "boom".toList, []⟩ else ⟨true, none, []⟩)
      0 (by decide) (by decide) (fun j hj => absurd hj (Nat.not_lt_zero j))).2.2

lemma getD_range_map {α : Type} (g : Nat → α) (n k : Nat) (d : α) (h : k < n) :
    ((List.range n).map g).getD k d = g k := by
  rw [List.getD_eq_getElem?_getD, List.getElem?_eq_getElem (by simpa using h)]
  simp

/-- The all-fragments-succeeded path of the orchestrator: the result is a
success whose combined container is `createWavFile` of the concatenated
decoded sample bytes under the last successfully decoded fragment's format
parameters (defaults 16000/1/16 when no fragment decoded). -/
lemma synthesizeSpeechWithTimings_all_success (t : List Char)
    (o : Nat → FragmentOutcome)
    (hne : (splitIntoSentences t).length ≠ 0)
    (hall : ∀ j, j < (splitIntoSentences t).length → (o j).success = true) :
    synthesizeSpeechWithTimings t o =
      (let sentences := splitIntoSentences t
       let reads := (List.range sentences.length).map
         (fun i => (sentences.getD i [], readWavFile (o i).fileBytes))
       let fmt := reads.foldl
         (fun acc r => match r.2 with
           | some w => (w.sampleRate, w.channels, w.bitsPerSample)
           | none => acc) (16000, 1, 16)
       let sds := reads.map
         (fun r => (r.1, match r.2 with | some w => w.durationMs | none => 0))
       ⟨true, none, buildTimings sds, (sds.map Prod.snd).sum,
        some (createWavFile (reads.filterMap (fun r => r.2.map WavData.data)).flatten
          fmt.1 fmt.2.1 fmt.2.2)⟩) := by
  have hfind := find?_range_map_eq_none
    (fun r : Nat × List Char × FragmentOutcome => !r.2.2.success)
    (fun j => (j, (splitIntoSentences t).getD j [], o j))
    (splitIntoSentences t).length (fun j hj => by simp [hall j hj])
  unfold synthesizeSpeechWithTimings
  simp only [hne, if_false, ite_false]
  rw [hfind]
  simp only [List.map_map]
  rfl

/-- Claim C3, amended. When the fragments of a fully successful batch do not
all share identical format parameters, the orchestrator does **not** reject
the merge: it still returns success and still writes a combined container
(whose header carries the parameters of the last fragment that decoded,
speechService.ts:277-293). -/
theorem c3_no_format_validation (t : List Char) (o : Nat → FragmentOutcome)
    (hne : (splitIntoSentences t).length ≠ 0)
    (hall : ∀ j, j < (splitIntoSentences t).length → (o j).success = true)
    (_hmismatch : ∃ i j, i < (splitIntoSentences t).length ∧
      j < (splitIntoSentences t).length ∧
      (readWavFile (o i).fileBytes).map
          (fun w => (w.sampleRate, w.channels, w.bitsPerSample)) ≠
        (readWavFile (o j).fileBytes).map
          (fun w => (w.sampleRate, w.channels, w.bitsPerSample))) :
    (synthesizeSpeechWithTimings t o).success = true ∧
    (synthesizeSpeechWithTimings t o).writtenWav.isSome = true := by
  rw [synthesizeSpeechWithTimings_all_success t o hne hall]
  exact ⟨rfl, rfl⟩

def c3Text : List Char := "One. Two.".toList

/-- Two successful fragments whose staged containers carry different sample
rates (16000 Hz vs 8000 Hz). -/
def c3Outcomes : Nat → FragmentOutcome := fun j =>
  if j = 0 then ⟨true, none, createWavFile [7] 16000 1 16⟩
  else ⟨true, none, createWavFile [9] 8000 1 16⟩

/-- Claim C3, counterexample. A batch of two fragments with different
FormatParameters is *not* rejected: the orchestrator reports success and
writes a combined container, contradicting the claim that mismatched
parameters are a fatal error for the batch. -/
theorem c3_counterexample :
    (readWavFile (c3Outcomes 0).fileBytes).map
        (fun w => (w.sampleRate, w.channels, w.bitsPerSample)) = some (16000, 1, 16) ∧
    (readWavFile (c3Outcomes 1).fileBytes).map
        (fun w => (w.sampleRate, w.channels, w.bitsPerSample)) = some (8000, 1, 16) ∧
    (synthesizeSpeechWithTimings c3Text c3Outcomes).success = true ∧
    (synthesizeSpeechWithTimings c3Text c3Outcomes).writtenWav.isSome = true := by
  decide

/-- Witness for the amended C3 at the concrete mismatched batch. -/
theorem c3_no_format_validation_witness :
    (splitIntoSentences c3Text).length ≠ 0 ∧
    ((synthesizeSpeechWithTimings c3Text c3Outcomes).success = true ∧
      (synthesizeSpeechWithTimings c3Text c3Outcomes).writtenWav.isSome = true) :=
  ⟨by decide,
   c3_no_format_validation c3Text c3Outcomes (by decide)
     (by decide)
     ⟨0, 1, by decide, by decide, by decide⟩⟩

/-- Claim C4, amended. A fragment whose staged container fails to decode does
*not* abort the batch (speechService.ts:277-288): the orchestrator still
returns success, and that fragment merely contributes a zero-width interval
(duration 0) to the timeline and no sample bytes to the combined container. -/
theorem c4_decode_failure_not_fatal (t : List Char) (o : Nat → FragmentOutcome)
    (hne : (splitIntoSentences t).length ≠ 0)
    (hall : ∀ j, j < (splitIntoSentences t).length → (o j).success = true)
    (k : Nat) (hk : k < (splitIntoSentences t).length)
    (hdec : readWavFile (o k).fileBytes = none) :
    (synthesizeSpeechWithTimings t o).success = true ∧
    (synthesizeSpeechWithTimings t o).writtenWav.isSome = true ∧
    ((synthesizeSpeechWithTimings t o).sentenceTimings.getD k default).endTime =
      ((synthesizeSpeechWithTimings t o).sentenceTimings.getD k default).startTime := by
  rw [synthesizeSpeechWithTimings_all_success t o hne hall]
  refine ⟨rfl, rfl, ?_⟩
  simp only []
  set sentences := splitIntoSentences t with hsent
  set reads := (List.range sentences.length).map
    (fun i => (sentences.getD i [], readWavFile (o i).fileBytes)) with hreads
  set sds := reads.map
    (fun r => (r.1, match r.2 with | some w => w.durationMs | none => 0)) with hsds
  have hlen : sds.length = sentences.length := by simp [hsds, hreads]
  have hget : sds.getD k default = (sentences.getD k [], 0) := by
    have : sds = (List.range sentences.length).map
        (fun i => (sentences.getD i [],
          match readWavFile (o i).fileBytes with
          | some w => w.durationMs | none => (0 : ℚ))) := by
      rw [hsds, hreads, List.map_map]; rfl
    rw [this, getD_range_map _ _ _ _ hk, hdec]
  rw [buildTimings_getD sds k (by omega)]
  have hsum := sum_take_succ_getD (sds.map Prod.snd) k (by simp [hlen]; omega)
  rw [getD_map_snd sds k (by omega), hget] at hsum
  simpa using hsum

def c4Text : List Char := "Hi.".toList

/-- A successful fragment whose staging file does not parse as a WAV
container. -/
def c4Outcomes : Nat → FragmentOutcome := fun _ => ⟨true, none, [1, 2, 3]⟩

/-- Claim C4, counterexample. A batch whose only fragment's container fails to
decode still returns success and still writes a combined container,
contradicting the claim that a decode failure aborts the batch with a
failure result and no output. -/
theorem c4_counterexample :
    readWavFile (c4Outcomes 0).fileBytes = none ∧
    (synthesizeSpeechWithTimings c4Text c4Outcomes).success = true ∧
    (synthesizeSpeechWithTimings c4Text c4Outcomes).writtenWav.isSome = true := by
  decide

/-- Witness for the amended C4 at the concrete undecodable batch. -/
theorem c4_decode_failure_not_fatal_witness :
    ((splitIntoSentences c4Text).length ≠ 0 ∧ 0 < (splitIntoSentences c4Text).length) ∧
    ((synthesizeSpeechWithTimings c4Text c4Outcomes).success = true ∧
      (synthesizeSpeechWithTimings c4Text c4Outcomes).writtenWav.isSome = true ∧
      ((synthesizeSpeechWithTimings c4Text c4Outcomes).sentenceTimings.getD 0
          default).endTime =
        ((synthesizeSpeechWithTimings c4Text c4Outcomes).sentenceTimings.getD 0
          default).startTime) :=
  ⟨⟨by decide, by decide⟩,
   c4_decode_failure_not_fatal c4Text c4Outcomes (by decide)
     (fun j _ => rfl) 0 (by decide) (by decide)⟩

/-- Claim C1 (round-trip law). For valid format parameters (positive sample
rate and channel count, bits-per-sample a positive multiple of 8, all fields
within the ranges Node's checked `Buffer` writes accept) and any non-empty
sample byte buffer, decoding the container produced by `createWavFile`
returns exactly the same format parameters, exactly the same sample bytes,
and a duration of
`sampleDataByteLength / (sampleRate * channelCount * bytesPerSample) * 1000`
milliseconds, the formula of `readWavFile` (speechService.ts:158-161). -/
theorem c1_encode_decode_roundtrip (data : List Nat) (sr ch bps : Nat)
    (hd : data ≠ []) (_hsr0 : 0 < sr) (_hch0 : 0 < ch) (_hbps0 : 0 < bps)
    (_hbps8 : bps % 8 = 0) (hch : ch < 65536) (hbps : bps < 65536)
    (hsr : sr < 4294967296) (_hbr : sr * ch * (bps / 8) < 4294967296)
    (hfs : 36 + data.length < 4294967296) :
    readWavFile (createWavFile data sr ch bps) =
      some ⟨(createWavFile data sr ch bps).take 44, data, sr, ch, bps,
            ((data.length : ℚ) / ((sr : ℚ) * (ch : ℚ) * ((bps : ℚ) / 8))) * 1000⟩ := by
  have hn : 0 < data.length := List.length_pos.mpr hd
  set b := createWavFile data sr ch bps with hb
  have hlen : b.length = data.length + 44 := by
    rw [hb]
    simp [createWavFile, u32LE, u16LE, riffMagic, waveMagic, fmtMagic, dataMagic]
  have hriff : asciiAt b 0 4 = riffMagic := by
    rw [hb]
    simp [createWavFile, u32LE, u16LE, riffMagic, waveMagic, fmtMagic, dataMagic, asciiAt]
  have hwave : asciiAt b 8 4 = waveMagic := by
    rw [hb]
    simp [createWavFile, u32LE, u16LE, riffMagic, waveMagic, fmtMagic, dataMagic, asciiAt]
  have hfmt12 : asciiAt b 12 4 = fmtMagic := by
    rw [hb]
    simp [createWavFile, u32LE, u16LE, riffMagic, waveMagic, fmtMagic, dataMagic, asciiAt]
  have hsize16 : readU32LE b 16 = 16 := by
    rw [hb]
    simp [createWavFile, u32LE, u16LE, riffMagic, waveMagic, fmtMagic, dataMagic, readU32LE]
  have hch22 : readU16LE b 22 = ch := by
    rw [hb]
    simp [createWavFile, u32LE, u16LE, riffMagic, waveMagic, fmtMagic, dataMagic, readU16LE]
    omega
  have hsr24 : readU32LE b 24 = sr := by
    rw [hb]
    simp [createWavFile, u32LE, u16LE, riffMagic, waveMagic, fmtMagic, dataMagic, readU32LE]
    omega
  have hbps34 : readU16LE b 34 = bps := by
    rw [hb]
    simp [createWavFile, u32LE, u16LE, riffMagic, waveMagic, fmtMagic, dataMagic, readU16LE]
    omega
  have hdata36 : asciiAt b 36 4 = dataMagic := by
    rw [hb]
    simp [createWavFile, u32LE, u16LE, riffMagic, waveMagic, fmtMagic, dataMagic, asciiAt]
  have hsize40 : readU32LE b 40 = data.length := by
    rw [hb]
    simp [createWavFile, u32LE, u16LE, riffMagic, waveMagic, fmtMagic, dataMagic, readU32LE]
    omega
  have hdrop44 : b.drop 44 = data := by
    rw [hb]
    simp [createWavFile, u32LE, u16LE, riffMagic, waveMagic, fmtMagic, dataMagic]
  have hg1 : 12 < b.length - 8 := by omega
  have hg2 : 36 < b.length - 8 := by omega
  have hb24 : 12 + 24 ≤ b.length := by omega
  rw [readWavFile, if_pos hriff, if_pos hwave, hlen]
  rw [scanChunks, if_pos hg1]
  simp only [Nat.reduceAdd]
  rw [hfmt12, if_pos rfl, if_pos hb24, hsize16, hch22, hsr24, hbps34]
  simp only [Nat.reduceAdd]
  rw [scanChunks, if_pos hg2]
  simp only [Nat.reduceAdd]
  rw [hdata36, if_neg (by decide : ¬(dataMagic = fmtMagic)), if_pos rfl, hsize40]
  rw [hdrop44, List.take_length]

/-- Witness for C1: a two-byte sample buffer at 8000 Hz mono 16-bit. -/
theorem c1_encode_decode_roundtrip_witness :
    (([1, 2] : List Nat) ≠ [] ∧ 0 < 8000 ∧ 8000 < 4294967296 ∧ 16 % 8 = 0) ∧
    readWavFile (createWavFile [1, 2] 8000 1 16) =
      some ⟨(createWavFile [1, 2] 8000 1 16).take 44, [1, 2], 8000, 1, 16,
            (((2 : Nat) : ℚ) / ((8000 : ℚ) * (1 : ℚ) * (((16 : Nat) : ℚ) / 8))) * 1000⟩ :=
  ⟨⟨by decide, by decide, by decide, by decide⟩,
   by
    have h := c1_encode_decode_roundtrip [1, 2] 8000 1 16 (by decide) (by decide)
      (by decide) (by decide) (by decide) (by decide) (by decide) (by decide)
      (by decide) (by decide)
    simpa using h⟩

/-- Whether the chunk scan of `readWavFile`, walking the same offsets as
`scanChunks` (start at 12, advance by `8 + chunkSize`), ever encounters a
chunk whose id decodes to `magic`.  Used to state which sections are present
in a container. -/
def chunkScanHits (b : List Nat) (magic : List Nat) : Nat → Nat → Bool
  | 0, _ => false
  | fuel + 1, offset =>
    if offset < b.length - 8 then
      if asciiAt b offset 4 = magic then true
      else chunkScanHits b magic fuel (offset + 8 + readU32LE b (offset + 4))
    else false

lemma scanChunks_eq_none_of_no_data (b : List Nat) :
    ∀ (fuel offset ch sr bps : Nat),
      chunkScanHits b dataMagic fuel offset = false →
      scanChunks b fuel offset ch sr bps = none := by
  intro fuel
  induction fuel with
  | zero => intro offset ch sr bps _; rfl
  | succ m ih =>
    intro offset ch sr bps hmiss
    rw [chunkScanHits] at hmiss
    rw [scanChunks]
    by_cases hoff : offset < b.length - 8
    · rw [if_pos hoff] at hmiss ⊢
      by_cases hdata : asciiAt b offset 4 = dataMagic
      · rw [if_pos hdata] at hmiss; exact absurd hmiss (by simp)
      · rw [if_neg hdata] at hmiss
        by_cases hfmt : asciiAt b offset 4 = fmtMagic
        · rw [if_pos hfmt]
          by_cases hbound : offset + 24 ≤ b.length
          · rw [if_pos hbound]; exact ih _ _ _ _ hmiss
          · rw [if_neg hbound]
        · rw [if_neg hfmt, if_neg hdata]
          exact ih _ _ _ _ hmiss
    · rw [if_neg hoff]

/-- Claim C6, amended. `readWavFile` fails (returns `null`) when the `RIFF` or
`WAVE` magic markers are absent (as seen through Node's high-bit-stripping
`'ascii'` decoding) or when the sequential chunk scan never encounters a
sample-data (`data`) section; a missing format-description (`fmt `) section,
by contrast, is tolerated and decoding proceeds with the built-in defaults
16000 Hz / 1 channel / 16 bits (speechService.ts:138-141). -/
theorem c6_decode_failure_conditions (b : List Nat)
    (h : asciiAt b 0 4 ≠ riffMagic ∨ asciiAt b 8 4 ≠ waveMagic ∨
      chunkScanHits b dataMagic (b.length + 1) 12 = false) :
    readWavFile b = none := by
  unfold readWavFile
  by_cases hriff : asciiAt b 0 4 = riffMagic
  · rw [if_pos hriff]
    by_cases hwave : asciiAt b 8 4 = waveMagic
    · rw [if_pos hwave]
      rcases h with h | h | h
      · exact absurd hriff h
      · exact absurd hwave h
      · exact scanChunks_eq_none_of_no_data b _ _ _ _ _ h
    · rw [if_neg hwave]
  · rw [if_neg hriff]

/-- A container with valid `RIFF`/`WAVE` markers and a sample-data chunk but
no format-description chunk at all. -/
def c6NoFmtBuf : List Nat :=
  riffMagic ++ u32LE 13 ++ waveMagic ++ dataMagic ++ u32LE 1 ++ [5]

/-- Claim C6, counterexample. A container whose format-description section is
absent is *not* rejected: the chunk scan never sees a `fmt ` chunk, yet
`readWavFile` succeeds, with the default format parameters — contradicting
the claim that a missing format-description section yields a FormatError. -/
theorem c6_counterexample :
    chunkScanHits c6NoFmtBuf fmtMagic (c6NoFmtBuf.length + 1) 12 = false ∧
    (readWavFile c6NoFmtBuf).map
      (fun w => (w.sampleRate, w.channels, w.bitsPerSample, w.data)) =
      some (16000, 1, 16, [5]) := by
  decide

def c6NoDataBuf : List Nat := riffMagic ++ u32LE 4 ++ waveMagic

/-- Witness for the amended C6: markers present but no sample-data section. -/
theorem c6_decode_failure_conditions_witness :
    chunkScanHits c6NoDataBuf dataMagic (c6NoDataBuf.length + 1) 12 = false ∧
    readWavFile c6NoDataBuf = none :=
  ⟨by decide,
   c6_decode_failure_conditions c6NoDataBuf (Or.inr (Or.inr (by decide)))⟩

lemma getD_append_pad (tr : List (List Char)) (n i : Nat) (_hi : i < n) :
    tr.getD i [] = (tr ++ List.replicate (n - tr.length) ([] : List Char)).getD i [] := by
  by_cases hlt : i < tr.length
  · rw [List.getD_eq_getElem?_getD, List.getD_eq_getElem?_getD,
      List.getElem?_append_left hlt]
  · rw [List.getD_eq_getElem?_getD, List.getD_eq_getElem?_getD,
      List.getElem?_append_right (by omega), List.getElem?_eq_none (by omega),
      List.getElem?_replicate]
    by_cases hrep : i - tr.length < n - tr.length
    · simp [hrep]
    · simp [hrep]

/-- Claim C9. The translated-only subtitle renderer tolerates a translations
array strictly shorter than the timings sequence: it renders exactly as if
the missing positions were empty text lines (`translations[i] || ''`,
translationService.ts:160), rather than failing the batch. -/
theorem c9_short_translations_pad_empty (ts : List SentenceTiming)
    (tr : List (List Char)) (_h : tr.length < ts.length) :
    generateChineseSRT ts tr =
      generateChineseSRT ts (tr ++ List.replicate (ts.length - tr.length) []) := by
  unfold generateChineseSRT
  have hcong :
      ((List.range ts.length).flatMap fun i =>
        let timing := ts.getD i default
        [natToChars timing.index,
         formatSRTTime timing.startTime ++ arrowSep ++ formatSRTTime timing.endTime,
         tr.getD i [], []]) =
      ((List.range ts.length).flatMap fun i =>
        let timing := ts.getD i default
        [natToChars timing.index,
         formatSRTTime timing.startTime ++ arrowSep ++ formatSRTTime timing.endTime,
         (tr ++ List.replicate (ts.length - tr.length) []).getD i [], []]) := by
    rw [List.flatMap_def, List.flatMap_def]
    refine congrArg _ (List.map_congr_left fun i hi => ?_)
    rw [getD_append_pad tr ts.length i (List.mem_range.mp hi)]
  rw [hcong]

/-- Witness for C9: two timings, one translation. -/
theorem c9_short_translations_pad_empty_witness :
    ([["好"].length < [(⟨"One.".toList, 0, 1200, 1⟩ : SentenceTiming),
        ⟨"Two.".toList, 1200, 2100, 2⟩].length] = [True]) ∧
    generateChineseSRT
        [⟨"One.".toList, 0, 1200, 1⟩, ⟨"Two.".toList, 1200, 2100, 2⟩]
        ["好".toList] =
      generateChineseSRT
        [⟨"One.".toList, 0, 1200, 1⟩, ⟨"Two.".toList, 1200, 2100, 2⟩]
        (["好".toList] ++ List.replicate (2 - 1) []) := by
  constructor
  · simp
  · have h := c9_short_translations_pad_empty
      [⟨"One.".toList, 0, 1200, 1⟩, ⟨"Two.".toList, 1200, 2100, 2⟩]
      ["好".toList] (by decide)
    simpa using h

/-- Modelled from the claim's words (spec §4.6): render a non-negative
millisecond value as `HH:MM:SS,mmm`, every field zero-padded (hours to at
least two digits, unbounded above since the full decimal rendering is kept),
with the total whole-millisecond count `T` obtained by truncation (not
rounding) of the fractional value and decomposed positionally. -/
def specSRTTime (milliseconds : ℚ) : List Char :=
  let T : Nat := ⌊milliseconds⌋.toNat
  jsPadStart 2 '0' (natToChars (T / 3600000)) ++ [':'] ++
    jsPadStart 2 '0' (natToChars (T / 60000 % 60)) ++ [':'] ++
    jsPadStart 2 '0' (natToChars (T / 1000 % 60)) ++ [','] ++
    jsPadStart 3 '0' (natToChars (T % 1000))

lemma intToChars_natCast (k : Nat) : intToChars (k : ℤ) = natToChars k := by
  rw [intToChars, if_neg (by omega), Int.toNat_natCast]

/-- Claim C8. For every non-negative millisecond value, `formatSRTTime`
(translationService.ts:171-179, duplicated at server.ts:184-192) renders
exactly the claimed `HH:MM:SS,mmm` format: zero-padded fields, hours
unbounded, milliseconds truncated rather than rounded. -/
theorem c8_srt_time_format (q : ℚ) (h : 0 ≤ q) : formatSRTTime q = specSRTTime q := by
  have hts : ⌊q / 1000⌋ = ((⌊q⌋.toNat / 1000 : ℕ) : ℤ) := by
    have h1 : ⌊q / 1000⌋.toNat = ⌊q⌋.toNat / 1000 := by
      rw [Int.floor_toNat, Int.floor_toNat, Nat.floor_div_ofNat]
    have h2 : 0 ≤ ⌊q / 1000⌋ := Int.floor_nonneg.mpr (by positivity)
    omega
  have hhours : ⌊((((⌊q⌋.toNat / 1000 : ℕ) : ℤ) : ℚ)) / 3600⌋ =
      ((⌊q⌋.toNat / 1000 / 3600 : ℕ) : ℤ) := by
    rw [show ((((⌊q⌋.toNat / 1000 : ℕ) : ℤ) : ℚ)) = ((⌊q⌋.toNat / 1000 : ℕ) : ℚ) by norm_cast,
      show ((3600 : ℚ)) = ((3600 : ℕ) : ℚ) by norm_cast,
      Rat.floor_natCast_div_natCast]
    norm_cast
  have htmod3600 : Int.tmod ((⌊q⌋.toNat / 1000 : ℕ) : ℤ) 3600 =
      ((⌊q⌋.toNat / 1000 % 3600 : ℕ) : ℤ) := by
    rw [Int.tmod_eq_emod (by omega) (by norm_num)]
    norm_cast
  have hminutes : ⌊((((⌊q⌋.toNat / 1000 % 3600 : ℕ) : ℤ) : ℚ)) / 60⌋ =
      ((⌊q⌋.toNat / 1000 % 3600 / 60 : ℕ) : ℤ) := by
    rw [show ((((⌊q⌋.toNat / 1000 % 3600 : ℕ) : ℤ) : ℚ)) =
        ((⌊q⌋.toNat / 1000 % 3600 : ℕ) : ℚ) by norm_cast,
      show ((60 : ℚ)) = ((60 : ℕ) : ℚ) by norm_cast,
      Rat.floor_natCast_div_natCast]
    norm_cast
  have htmod60 : Int.tmod ((⌊q⌋.toNat / 1000 : ℕ) : ℤ) 60 =
      ((⌊q⌋.toNat / 1000 % 60 : ℕ) : ℤ) := by
    rw [Int.tmod_eq_emod (by omega) (by norm_num)]
    norm_cast
  have hms : ⌊jsRem q 1000⌋ = ((⌊q⌋.toNat % 1000 : ℕ) : ℤ) := by
    rw [jsRem, jsTrunc, if_neg (not_lt.mpr (by positivity)), hts]
    rw [show ((1000 : ℚ) * ((((⌊q⌋.toNat / 1000 : ℕ) : ℤ) : ℚ)) =
        (((1000 * (⌊q⌋.toNat / 1000) : ℕ) : ℤ) : ℚ)) by push_cast; ring]
    rw [Int.floor_sub_int]
    have hfl : ⌊q⌋ = (⌊q⌋.toNat : ℤ) := by
      have : 0 ≤ ⌊q⌋ := Int.floor_nonneg.mpr h
      omega
    rw [hfl]
    push_cast
    have : 1000 * (⌊q⌋.toNat / 1000) ≤ ⌊q⌋.toNat := Nat.mul_div_le _ _
    omega
  rw [formatSRTTime, specSRTTime]
  rw [hts, hhours, htmod3600, hminutes, htmod60, hms]
  rw [intToChars_natCast, intToChars_natCast, intToChars_natCast, intToChars_natCast]
  have e1 : ⌊q⌋.toNat / 1000 / 3600 = ⌊q⌋.toNat / 3600000 := by
    rw [Nat.div_div_eq_div_mul]
  have e2 : ⌊q⌋.toNat / 1000 % 3600 / 60 = ⌊q⌋.toNat / 60000 % 60 := by omega
  rw [e1, e2]

/-- Witness for C8 at the fractional value 3661001.5 ms
(1 h 1 min 1 s 1.5 ms). -/
theorem c8_srt_time_format_witness :
    (0 : ℚ) ≤ 7322003 / 2 ∧
    formatSRTTime (7322003 / 2) = specSRTTime (7322003 / 2) :=
  ⟨by norm_num, c8_srt_time_format (7322003 / 2) (by norm_num)⟩

/-! ### Sentence splitter lemmas (C7, C10) -/

lemma getD_drop' (t : List Char) (q k : Nat) (d : Char) :
    (t.drop q).getD k d = t.getD (q + k) d := by
  rw [List.getD_eq_getElem?_getD, List.getD_eq_getElem?_getD, List.getElem?_drop]

lemma takeWhile_pred_getD {α : Type} (p : α → Bool) (l : List α) (k : Nat) (d : α)
    (hk : k < (l.takeWhile p).length) : p (l.getD k d) = true := by
  induction l generalizing k with
  | nil => simp [List.takeWhile] at hk
  | cons a as ih =>
    rw [List.takeWhile_cons] at hk
    by_cases hpa : p a = true
    · rw [if_pos hpa] at hk
      cases k with
      | zero => simpa using hpa
      | succ j =>
        rw [List.length_cons] at hk
        exact ih j (by omega)
    · rw [if_neg hpa] at hk
      simp at hk

lemma wsRun_le (t : List Char) (q : Nat) : wsRun t q ≤ t.length - q := by
  have h1 : ((t.drop q).takeWhile isJsWhitespace).length ≤ (t.drop q).length :=
    (List.takeWhile_sublist _).length_le
  simpa [wsRun] using h1

lemma wsRun_spec (t : List Char) (q k : Nat) (hk : k < wsRun t q) :
    isJsWhitespace (t.getD (q + k) ' ') = true := by
  have := takeWhile_pred_getD isJsWhitespace (t.drop q) k ' ' hk
  rwa [getD_drop'] at this

lemma matchAt_some {t : List Char} {q e : Nat} (h : matchAt t q = some e) :
    1 ≤ q ∧ t.getD (q - 1) ' ' = '.' ∧ e = q + wsRun t q := by
  unfold matchAt at h
  split at h
  · rename_i hc
    exact ⟨hc.1, hc.2, (Option.some.injEq _ _ ▸ h).symm⟩
  · exact absurd h (by simp)

/-- The split result tiles the input left to right: each piece is the
contiguous substring `substr t p q` ending at a position whose preceding
character is `'.'`, consecutive pieces are separated only by the whitespace
the separator regex consumed, and the final piece runs to the end of the
input.  This captures that `jsSplit` returns the sentences in input order
with the terminal period kept on the preceding piece. -/
inductive Tiles (t : List Char) : Nat → List (List Char) → Prop where
  | last (p : Nat) : Tiles t p [t.drop p]
  | piece (p q e : Nat) (hpq : p ≤ q) (hqe : q ≤ e) (heL : e ≤ t.length)
      (hq1 : 1 ≤ q) (hdot : t.getD (q - 1) ' ' = '.')
      (hws : ∀ j, q ≤ j → j < e → isJsWhitespace (t.getD j ' ') = true)
      {rest : List (List Char)} (hrest : Tiles t e rest) :
      Tiles t p (substr t p q :: rest)

lemma splitLoop_tiles (t : List Char) :
    ∀ fuel p q, p ≤ q → q ≤ t.length →
      2 * (t.length - q) + (if p = q then 0 else 1) < fuel →
      Tiles t p (splitLoop t fuel p q) := by
  intro fuel
  induction fuel with
  | zero => intro p q _ _ hbound; omega
  | succ m ih =>
    intro p q hpq hqL hbound
    rw [splitLoop]
    by_cases hq : q < t.length
    · rw [if_pos hq]
      cases hmatch : matchAt t q with
      | none =>
        exact ih p (q + 1) (by omega) (by omega)
          (by by_cases hpq' : p = q + 1 <;> simp [hpq'] <;> omega)
      | some e =>
        dsimp only
        obtain ⟨hq1, hdot, he⟩ := matchAt_some hmatch
        by_cases hep : e = p
        · rw [if_pos hep]
          exact ih p (q + 1) (by omega) (by omega)
            (by by_cases hpq' : p = q + 1 <;> simp [hpq'] <;> omega)
        · rw [if_neg hep]
          have hwle := wsRun_le t q
          have heL : e ≤ t.length := by omega
          refine Tiles.piece p q e hpq (by omega) heL hq1 hdot ?_ ?_
          · intro j hj1 hj2
            have : j - q < wsRun t q := by omega
            have := wsRun_spec t q (j - q) this
            rwa [show q + (j - q) = j by omega] at this
          · refine ih e e le_rfl heL ?_
            rw [if_pos rfl]
            by_cases heq : e = q
            · have hnpq : ¬p = q := fun hh => hep (by omega)
              rw [if_neg hnpq] at hbound
              omega
            · by_cases hpq2 : p = q
              · rw [if_pos hpq2] at hbound; omega
              · rw [if_neg hpq2] at hbound; omega
    · rw [if_neg hq]
      exact Tiles.last p

lemma jsSplit_tiles (t : List Char) : Tiles t 0 (jsSplit t) :=
  splitLoop_tiles t (2 * t.length + 2) 0 0 le_rfl (Nat.zero_le _) (by simp)

lemma tiles_ne_nil {t : List Char} {p : Nat} {l : List (List Char)}
    (h : Tiles t p l) : l ≠ [] := by cases h <;> simp

lemma substr_getLast (t : List Char) (p q : Nat) (hpq : p < q) (hqL : q ≤ t.length) :
    (substr t p q).getLast? = some (t.getD (q - 1) ' ') := by
  have hq1 : q - 1 < t.length := by omega
  have hlen : (substr t p q).length = q - p := by
    simp [substr]
    omega
  rw [List.getLast?_eq_getElem?, hlen]
  have h1 : q - p - 1 < q - p := by omega
  rw [substr, List.getElem?_take_of_lt h1, List.getElem?_drop,
    show p + (q - p - 1) = q - 1 by omega, List.getElem?_eq_getElem hq1]
  rw [List.getD_eq_getElem?_getD, List.getElem?_eq_getElem hq1]
  rfl

lemma tiles_dropLast_dot {t : List Char} :
    ∀ {p : Nat} {l : List (List Char)}, Tiles t p l →
      ∀ x ∈ l.dropLast, x = [] ∨ x.getLast? = some '.' := by
  intro p l h
  induction h with
  | last p => simp
  | piece p q e hpq hqe heL hq1 hdot hws hrest ih =>
    intro x hx
    rename_i rest
    have hrne : rest ≠ [] := tiles_ne_nil hrest
    rw [List.dropLast_cons_of_ne_nil hrne] at hx
    rcases List.mem_cons.mp hx with hxp | hxr
    · subst hxp
      by_cases hpq' : p = q
      · left; simp [substr, hpq']
      · right
        rw [substr_getLast t p q (by omega) (by omega), hdot]
    · exact ih x hxr

lemma head?_dropWhile_false {α : Type} (p : α → Bool) (l : List α) (a : α)
    (h : (l.dropWhile p).head? = some a) : p a = false := by
  have := List.head?_dropWhile_not p l
  rw [h] at this
  exact this

lemma dropWhile_eq_self_of_head {α : Type} (p : α → Bool) (l : List α)
    (h : ∀ a, l.head? = some a → p a = false) : l.dropWhile p = l := by
  cases l with
  | nil => rfl
  | cons a as =>
    rw [List.dropWhile_cons, if_neg (by simp [h a rfl])]

lemma dropWhile_dropWhile {α : Type} (p : α → Bool) (l : List α) :
    (l.dropWhile p).dropWhile p = l.dropWhile p :=
  dropWhile_eq_self_of_head p _ (fun a ha => head?_dropWhile_false p l a ha)

lemma getLast?_dropWhile_of_ne_nil {α : Type} (p : α → Bool) (l : List α)
    (h : l.dropWhile p ≠ []) : (l.dropWhile p).getLast? = l.getLast? := by
  obtain ⟨u, hu⟩ := List.dropWhile_suffix p (l := l)
  conv_rhs => rw [← hu]
  rw [List.getLast?_append]
  cases hdw : (l.dropWhile p).getLast? with
  | none => exact absurd (List.getLast?_eq_none_iff.mp hdw) h
  | some y => rfl

lemma jsTrim_reverse_eq (s : List Char) :
    (jsTrim s).reverse = (((s.dropWhile isJsWhitespace).reverse).dropWhile isJsWhitespace) := by
  rw [jsTrim, List.reverse_reverse]

lemma dropWhile_jsTrim_reverse (s : List Char) :
    ((jsTrim s).reverse).dropWhile isJsWhitespace = (jsTrim s).reverse := by
  rw [jsTrim_reverse_eq]
  exact dropWhile_dropWhile _ _

lemma dropWhile_jsTrim (s : List Char) :
    (jsTrim s).dropWhile isJsWhitespace = jsTrim s := by
  refine dropWhile_eq_self_of_head _ _ (fun a ha => ?_)
  rw [jsTrim] at ha
  rw [List.head?_reverse] at ha
  by_cases hB : ((s.dropWhile isJsWhitespace).reverse).dropWhile isJsWhitespace = []
  · rw [hB] at ha; simp at ha
  · rw [getLast?_dropWhile_of_ne_nil _ _ hB, List.getLast?_reverse] at ha
    exact head?_dropWhile_false _ _ _ ha

lemma jsTrim_idem (s : List Char) : jsTrim (jsTrim s) = jsTrim s := by
  conv_lhs => rw [jsTrim, dropWhile_jsTrim, dropWhile_jsTrim_reverse]
  rw [List.reverse_reverse]

lemma jsTrim_getLast_dot (r : List Char) (hdot : r.getLast? = some '.')
    (hne : jsTrim r ≠ []) : (jsTrim r).getLast? = some '.' := by
  set A := r.dropWhile isJsWhitespace with hA
  have hAne : A ≠ [] := by
    intro hAnil
    apply hne
    rw [jsTrim, ← hA, hAnil]
    rfl
  have hAlast : A.getLast? = some '.' := by
    rw [hA, getLast?_dropWhile_of_ne_nil _ _ (hA ▸ hAne), hdot]
  have hrevhead : A.reverse.head? = some '.' := by
    rw [List.head?_reverse, hAlast]
  have hB : A.reverse.dropWhile isJsWhitespace = A.reverse := by
    refine dropWhile_eq_self_of_head _ _ (fun a ha => ?_)
    rw [hrevhead] at ha
    cases ha
    decide
  rw [jsTrim, ← hA, hB, List.reverse_reverse, hAlast]

lemma splitLoop_no_period (t : List Char) (hnp : ∀ c ∈ t, c ≠ '.') :
    ∀ fuel p q, t.length - q < fuel → splitLoop t fuel p q = [t.drop p] := by
  intro fuel
  induction fuel with
  | zero => intro p q hbound; omega
  | succ m ih =>
    intro p q hbound
    rw [splitLoop]
    by_cases hq : q < t.length
    · rw [if_pos hq]
      have hmatch : matchAt t q = none := by
        rw [matchAt, if_neg]
        rintro ⟨hq1, hdot⟩
        have hq1' : q - 1 < t.length := by omega
        have hmem : t.getD (q - 1) ' ' ∈ t := by
          rw [List.getD_eq_getElem?_getD, List.getElem?_eq_getElem hq1']
          exact List.getElem_mem hq1'
        exact hnp _ hmem hdot
      rw [hmatch]
      exact ih p (q + 1) (by omega)
    · rw [if_neg hq]

lemma jsSplit_no_period (t : List Char) (hnp : ∀ c ∈ t, c ≠ '.') :
    jsSplit t = [t] := by
  rw [jsSplit, splitLoop_no_period t hnp _ 0 0 (by omega), List.drop_zero]

lemma mem_all_ws_of_jsTrim_nil (t : List Char) (h : jsTrim t = []) :
    ∀ c ∈ t, isJsWhitespace c = true := by
  have hB : ((t.dropWhile isJsWhitespace).reverse).dropWhile isJsWhitespace = [] := by
    have := congrArg List.reverse h
    rwa [jsTrim_reverse_eq, List.reverse_nil] at this
  have hdw : ∀ c ∈ t.dropWhile isJsWhitespace, isJsWhitespace c = true := by
    intro c hc
    exact List.dropWhile_eq_nil_iff.mp hB c (List.mem_reverse.mpr hc)
  intro c hc
  rw [← List.takeWhile_append_dropWhile (p := isJsWhitespace) (l := t)] at hc
  rcases List.mem_append.mp hc with hctw | hcdw
  · exact List.mem_takeWhile_imp hctw
  · exact hdw c hcdw

lemma mem_dropLast_filter_map {α β : Type} (f : α → β) (P : β → Bool) :
    ∀ (l : List α) (x : β), x ∈ ((l.map f).filter P).dropLast →
      ∃ r ∈ l.dropLast, x = f r := by
  intro l
  induction l with
  | nil => simp
  | cons a as ih =>
    intro x hx
    rw [List.map_cons, List.filter_cons] at hx
    have hasne : ∀ (r : β), r ∈ ((as.map f).filter P).dropLast → as ≠ [] := by
      rintro r hr rfl
      simp at hr
    by_cases hPa : P (f a) = true
    · rw [if_pos hPa] at hx
      cases hfl : (as.map f).filter P with
      | nil => rw [hfl] at hx; simp at hx
      | cons y ys =>
        have hasne' : as ≠ [] := by
          rintro rfl
          simp at hfl
        rw [hfl, List.dropLast_cons₂] at hx
        rcases List.mem_cons.mp hx with hxa | hxr
        · refine ⟨a, ?_, hxa⟩
          cases as with
          | nil => exact absurd rfl hasne'
          | cons b bs => rw [List.dropLast_cons₂]; exact List.mem_cons_self _ _
        · obtain ⟨r, hr, hxr'⟩ := ih x (by rw [hfl]; exact hxr)
          refine ⟨r, ?_, hxr'⟩
          cases as with
          | nil => simp at hr
          | cons b bs =>
            rw [List.dropLast_cons₂]
            exact List.mem_cons_of_mem _ hr
    · rw [if_neg hPa] at hx
      obtain ⟨r, hr, hxr⟩ := ih x hx
      refine ⟨r, ?_, hxr⟩
      cases as with
      | nil => simp at hr
      | cons b bs =>
        rw [List.dropLast_cons₂]
        exact List.mem_cons_of_mem _ hr


/-- Claim C7. The sentence splitter returns only non-empty, whitespace-trimmed
strings; the raw split pieces tile the input in order (contiguous substrings
separated only by the whitespace the separator consumed), so the sentences
appear in input order with the terminal period retained at the end of the
preceding piece (every returned sentence except possibly the last ends in
`'.'`); candidates empty after trimming are dropped; an input that is empty
after trimming yields the empty sequence, which the orchestrator
(speechService.ts:217-219) reports as the "No sentences found in text"
input error. -/
theorem c7_sentence_splitter (t : List Char) (o : Nat → FragmentOutcome) :
    (∀ s ∈ splitIntoSentences t, s ≠ [] ∧ jsTrim s = s) ∧
    Tiles t 0 (jsSplit t) ∧
    (∀ s ∈ (splitIntoSentences t).dropLast, s.getLast? = some '.') ∧
    (jsTrim t = [] → splitIntoSentences t = []) ∧
    (splitIntoSentences t = [] →
      synthesizeSpeechWithTimings t o =
        ⟨false, some noSentencesError, [], 0, none⟩) := by
  refine ⟨?_, jsSplit_tiles t, ?_, ?_, ?_⟩
  · intro s hs
    rw [splitIntoSentences, List.mem_filter] at hs
    obtain ⟨hmem, hP⟩ := hs
    have hne : s ≠ [] := by
      intro hnil
      rw [hnil] at hP
      simp at hP
    obtain ⟨r, _, hr⟩ := List.mem_map.mp hmem
    exact ⟨hne, by rw [← hr, jsTrim_idem]⟩
  · intro s hs
    have hsmem : s ∈ splitIntoSentences t := (List.dropLast_sublist _).subset hs
    have hP : 0 < s.length := by
      rw [splitIntoSentences, List.mem_filter] at hsmem
      simpa using hsmem.2
    have hsne : s ≠ [] := by
      intro hnil; rw [hnil] at hP; simp at hP
    obtain ⟨r, hrmem, hrx⟩ := mem_dropLast_filter_map jsTrim
      (fun s => decide (0 < s.length)) (jsSplit t) s hs
    rcases tiles_dropLast_dot (jsSplit_tiles t) r hrmem with hrnil | hrdot
    · rw [hrnil] at hrx
      exact absurd (by rw [hrx]; rfl) hsne
    · rw [hrx]
      exact jsTrim_getLast_dot r hrdot (by rw [← hrx]; exact hsne)
  · intro h
    have hnp : ∀ c ∈ t, c ≠ '.' := by
      intro c hc hcdot
      have := mem_all_ws_of_jsTrim_nil t h c hc
      rw [hcdot] at this
      exact absurd this (by decide)
    rw [splitIntoSentences, jsSplit_no_period t hnp, List.map_cons, List.map_nil, h]
    rfl
  · intro h
    rw [synthesizeSpeechWithTimings]
    rw [h]
    rfl

/-- Witness for C7 at the concrete input `"One. Two."`. -/
theorem c7_sentence_splitter_witness :
    ("One.".toList ∈ (splitIntoSentences "One. Two.".toList).dropLast ∧
      "Two.".toList ∈ splitIntoSentences "One. Two.".toList) ∧
    ("One.".toList : List Char).getLast? = some '.' ∧
    jsTrim "Two.".toList = "Two.".toList :=
  ⟨⟨by decide, by decide⟩,
   (c7_sentence_splitter "One. Two.".toList
      (fun _ => ⟨true, none, []⟩)).2.2.1 "One.".toList (by decide),
   ((c7_sentence_splitter "One. Two.".toList
      (fun _ => ⟨true, none, []⟩)).1 "Two.".toList (by decide)).2⟩

/-- Claim C10, counterexample. The whitespace-only input `" "` is non-empty and
contains no period, yet the splitter returns the empty sequence (the single
raw piece trims to the empty string and is dropped), not a one-element
sequence. -/
theorem c10_counterexample :
    ([' '] : List Char) ≠ [] ∧ '.' ∉ ([' '] : List Char) ∧
    splitIntoSentences [' '] = [] := by
  decide

/-- Claim C10, amended. For every input that contains no period and is
non-empty *after trimming*, the splitter returns the one-element sequence
holding the whole input trimmed of surrounding whitespace. -/
theorem c10_no_period_single_sentence (t : List Char)
    (hnp : ∀ c ∈ t, c ≠ '.') (hne : jsTrim t ≠ []) :
    splitIntoSentences t = [jsTrim t] := by
  rw [splitIntoSentences, jsSplit_no_period t hnp, List.map_cons, List.map_nil,
    List.filter_cons, if_pos (by simpa using List.length_pos.mpr hne)]
  rfl

/-- Witness for the amended C10 at the period-free input `"hi"`. -/
theorem c10_no_period_single_sentence_witness :
    (("hi".toList : List Char).contains '.' = false ∧ jsTrim "hi".toList ≠ []) ∧
    splitIntoSentences "hi".toList = [jsTrim "hi".toList] :=
  ⟨⟨by decide, by decide⟩,
   c10_no_period_single_sentence "hi".toList (by decide) (by decide)⟩
